import Mathlib

/-!
Shallow embedding of the OVDP_calc bond pricing engine (src/bond_utils.py).

Conventions of the embedding:
* Calendar dates are modelled as integers (day numbers); `pd.Timestamp`
  subtraction `(a - b).days` becomes integer subtraction.
* Python floats are modelled as `ℚ` where the code only performs field
  arithmetic, and as `ℝ` where fractional powers (`**` with non-integer
  exponent) occur.
* `round(x, 2)` is modelled as `round (100 * x) / 100` (nearest integer,
  ties away from the `Int.floor`-based convention of Mathlib's `round`;
  all concrete inputs used below are tie-free, so the half-even vs
  half-up distinction never matters).
* A bond reference row (one row of the instrument table) is modelled by
  `Bond`: the coupon dates extracted from the row columns, par value,
  currency, coupon rate (already divided by 100, as in the source),
  coupon frequency (0 when the column is NaN), issue and maturity dates.
* Functions that raise `ValueError` are modelled with `Except String`.
-/

structure Bond where
  rowDates : List ℤ
  par : ℚ
  ccy : String
  couponRate : ℚ
  freq : ℕ
  issue : ℤ
  maturity : ℤ

/-- Python's `sorted(set(l))`: deduplicate then sort ascending. -/
def sortedDedup (l : List ℤ) : List ℤ :=
  List.insertionSort (fun a b => a ≤ b) l.dedup

/-- Step used by `_fallback_coupon_dates`:
`182 if (freq is None or int(freq) == 2) else max(1, 365 // int(freq))`. -/
def fallbackStep (freq : ℕ) : ℕ :=
  if freq = 2 then 182 else max 1 (365 / freq)

/-- The `while d >= issue: dates.insert(0, d); d -= step` loop of
`_fallback_coupon_dates`, written with explicit fuel.  Since the step is
always ≥ 1, fuel `(d - issue).toNat + 1` is enough for the loop to reach
its exit condition, so the fuelled function agrees with the source loop. -/
def fallbackLoop (issue : ℤ) (step : ℕ) : ℕ → ℤ → List ℤ
  | 0, _ => []
  | fuel + 1, d => if d < issue then [] else fallbackLoop issue step fuel (d - step) ++ [d]

/-- Source `_fallback_coupon_dates(issue_date, maturity_date, freq)`:
count backward from maturity in fixed steps while still at or after issue. -/
def fallback_coupon_dates (issue maturity : ℤ) (freq : ℕ) : List ℤ :=
  fallbackLoop issue (fallbackStep freq) ((maturity - issue).toNat + 1) maturity

/-- Source `_full_coupon_schedule_and_params` (the date part): row-extracted coupon
dates when at least two are present, otherwise the maturity-anchored
fallback; maturity is appended (and the list re-sorted) when missing. -/
def full_coupon_schedule (b : Bond) : List ℤ :=
  let dates := sortedDedup b.rowDates
  let dates := if dates.length < 2 then
      fallback_coupon_dates b.issue b.maturity (if b.freq = 0 then 2 else b.freq)
    else dates
  if b.maturity ∈ dates then dates
  else List.insertionSort (fun a b => a ≤ b) (dates ++ [b.maturity])

/-- Future payment dates: `[d for d in dates if d >= calc_date]`. -/
def futureDates (b : Bond) (cd : ℤ) : List ℤ :=
  (full_coupon_schedule b).filter (fun d => cd ≤ d)

/-- Python's `round(x, 2)` on an exact rational. -/
def round2 (x : ℚ) : ℚ := (round (100 * x) : ℤ) / 100

/-- Python `max(1, 365 // freq)` as an integer number of days. -/
def nomStep (freq : ℕ) : ℤ := ((max 1 (365 / freq) : ℕ) : ℤ)

/-- The previous-boundary / current-period-length lookup that the source
duplicates verbatim inside `accrued_interest` (lines 120-129),
`primary_price_from_yield_minfin` (lines 205-214) and `yields_from_price`
(lines 288-297): given the schedule and the next coupon date, return
`(prev_coupon, KDP0)` with the degenerate-period guard applied. -/
def prevAndKdp0 (dates : List ℤ) (next_c : ℤ) (freq : ℕ) : ℤ × ℤ :=
  let idx := dates.indexOf next_c
  let prev :=
    if idx = 0 then
      next_c - (if 2 ≤ dates.length then dates.getD 1 0 - dates.getD 0 0 else nomStep freq)
    else dates.getD (idx - 1) 0
  let kdp0 := next_c - prev
  (prev, if kdp0 ≤ 0 then nomStep freq else kdp0)

/-- Source `accrued_interest(calc_date, isin, df)`. -/
def accrued_interest (cd : ℤ) (b : Bond) : ℚ :=
  let dates := full_coupon_schedule b
  if b.couponRate ≤ 0 ∨ b.freq = 0 then 0
  else
    let SD := b.par * b.couponRate / (b.freq : ℚ)
    match dates.filter (fun d => cd ≤ d) with
    | [] => 0
    | next_c :: _ =>
      let pk := prevAndKdp0 dates next_c b.freq
      let elapsed := min (max (cd - pk.1) 0) pk.2
      round2 (SD * ((elapsed : ℚ) / (pk.2 : ℚ)))

/-- Source `coupons_between(df, isin, start_date, end_date)`:
schedule dates with `start_date < d <= end_date`, each paired with the
rounded per-period coupon amount.  Dates are kept as integers (the
source's `strftime` formatting is presentational only). -/
def coupons_between (b : Bond) (start_date end_date : ℤ) : List (ℤ × ℚ) × String :=
  if b.couponRate ≤ 0 ∨ b.freq = 0 then ([], b.ccy)
  else
    let SD := round2 (b.par * b.couponRate / (b.freq : ℚ))
    (((full_coupon_schedule b).filter
        (fun d => start_date < d ∧ d ≤ end_date)).map (fun d => (d, SD)), b.ccy)

/-! The root solver (`_bracket`, `_bisect`, `_solve_root`).  The Python code
works on floats with explicit iteration caps; it is embedded over `ℚ`
with the caps as structural fuel. -/

/-- The `while f_lo * f_hi > 0 and tries < max_tries: hi *= expand` loop of
`_bracket`, with the remaining retry budget as fuel. -/
def bracketLoop (f : ℚ → ℚ) (lo expand f_lo : ℚ) : ℚ → ℚ → ℕ → ℚ × ℚ × ℚ × ℚ
  | hi, f_hi, 0 => (lo, hi, f_lo, f_hi)
  | hi, f_hi, n + 1 =>
    if f_lo * f_hi > 0 then bracketLoop f lo expand f_lo (hi * expand) (f (hi * expand)) n
    else (lo, hi, f_lo, f_hi)

/-- Source `_bracket(func, lo, hi, expand, max_tries)`. -/
def bracket (f : ℚ → ℚ) (lo hi expand : ℚ) (max_tries : ℕ) : ℚ × ℚ × ℚ × ℚ :=
  bracketLoop f lo expand (f lo) hi (f hi) max_tries

/-- The bounded bisection loop of `_bisect`, with `maxiter` as fuel; the
source returns the midpoint when the iteration budget runs out. -/
def bisectLoop (f : ℚ → ℚ) (tol : ℚ) : ℕ → ℚ → ℚ → ℚ → ℚ → ℚ
  | 0, lo, hi, _, _ => (lo + hi) / 2
  | n + 1, lo, hi, f_lo, f_hi =>
    let mid := (lo + hi) / 2
    let f_mid := f mid
    if |f_mid| < tol ∨ hi - lo < tol then mid
    else if f_lo * f_mid < 0 then bisectLoop f tol n lo mid f_lo f_mid
    else bisectLoop f tol n mid hi f_mid f_hi

/-- Source `_bisect(func, lo, hi, f_lo, f_hi, tol, maxiter)`
(with the endpoint values passed explicitly, as `_solve_root` does). -/
def bisect (f : ℚ → ℚ) (lo hi f_lo f_hi tol : ℚ) (maxiter : ℕ) : ℚ :=
  if f_lo = 0 then lo
  else if f_hi = 0 then hi
  else bisectLoop f tol maxiter lo hi f_lo f_hi

/-- Source `_solve_root(func, lo, hi, tol, maxiter)`: bracket
first; if there is still no sign change return the midpoint of the final
bracket, otherwise bisect. -/
def solve_root (f : ℚ → ℚ) (lo hi tol : ℚ) (maxiter : ℕ) : ℚ :=
  let r := bracket f lo hi (3 / 2) 25
  if r.2.2.1 * r.2.2.2 > 0 then (r.1 + r.2.1) / 2
  else bisect f r.1 r.2.1 r.2.2.1 r.2.2.2 tol maxiter

/-- Result record of `yields_from_price`. -/
structure YieldsOut where
  secondary_yield : ℚ
  secondary_formula : String
  primary_yield : ℚ
  primary_formula : String
  currency : String
deriving DecidableEq

/-- Source `yields_from_price(calc_date, isin, price_dirty, df)`.

Two facts about the source determine the shape of this embedding:
* In both solver branches the source calls
  `_solve_root(pv, lo, hi, maxiter=200, xtol=1e-12)` (lines 281 and 316),
  but `_solve_root` has no parameter named `xtol`, so the call raises
  `TypeError` before the solver body runs; the surrounding
  `except Exception` then always produces the `"SIM (fallback)"` result.
* The bracket-widening `for` loops before those calls (lines 275-279 and
  310-314) and the `next_c`/`prev_c`/`KDP0` computation (lines 288-297)
  only feed the dead solver calls, so they do not affect the returned
  value (the loops' functions raise no exception: their base `1+y` is
  clamped positive).
Hence every returned quantity is plain field arithmetic over `ℚ`. -/
def yields_from_price (cd : ℤ) (b : Bond) (price_dirty : ℚ) :
    Except String YieldsOut :=
  if b.maturity ≤ cd then .error "Дата розрахунку ≥ дати погашення."
  else
    let days := b.maturity - cd
    if 0 < b.couponRate ∧ 0 < b.freq then
      let SD := b.par * b.couponRate / (b.freq : ℚ)
      let future := futureDates b cd
      let short_or_last := days ≤ 182 ∨ future = [b.maturity]
      let y_f := round2 (((b.par + SD) / price_dirty - 1) * (365 / (days : ℚ)) * 100)
      let sec_f := if short_or_last then "SIM" else "SIM (fallback)"
      .ok ⟨y_f, sec_f, y_f, "SIM (fallback)", b.ccy⟩
    else
      let y_sim := round2 ((b.par / price_dirty - 1) * (365 / (days : ℚ)) * 100)
      .ok ⟨y_sim, "SIM", y_sim, "SIM", b.ccy⟩

/-! Real-valued pricing.  The secondary YTM and primary Minfin formulas use
fractional powers, so they live over `ℝ` (with `Real.rpow`). -/

/-- Python's `round(x, 2)` on a real value. -/
noncomputable def round2R (x : ℝ) : ℝ := ((round (100 * x) : ℤ) : ℝ) / 100

/-- The unrounded dirty price computed by `secondary_price_from_yield`
(lines 154-173 of the source) for a not-yet-matured bond, as a function of
the decimal yield `y`: zero-coupon SIM, short/last-payment SIM, or the
day-count YTM sum with the final coupon and the redemption discounted as
separate terms. -/
noncomputable def secondaryDirtyRaw (cd : ℤ) (b : Bond) (y : ℝ) : ℝ :=
  let days := b.maturity - cd
  if ¬(0 < b.couponRate ∧ 0 < b.freq) then
    (b.par : ℝ) / (1 + y * ((days : ℝ) / 365))
  else
    let SD : ℝ := (b.par : ℝ) * (b.couponRate : ℝ) / (b.freq : ℝ)
    let future := futureDates b cd
    if days ≤ 182 ∨ future = [b.maturity] then
      ((b.par : ℝ) + SD) / (1 + y * ((days : ℝ) / 365))
    else
      (future.map (fun d => SD / (1 + y) ^ (((d - cd : ℤ) : ℝ) / 365))).sum
        + (b.par : ℝ) / (1 + y) ^ ((days : ℝ) / 365)

/-- Source `secondary_price_from_yield(calc_date, isin, yield_percent, df)`; returns `(dirty, AI, clean, currency, formula)`.  Note the
source's asymmetric rounding: the SIM branches compute
`round(price-ai, 2)` from the unrounded price, the YTM branch computes
`round(round(total, 2) - ai, 2)`. -/
noncomputable def secondary_price_from_yield (cd : ℤ) (b : Bond)
    (yield_percent : ℚ) : ℝ × ℝ × ℝ × String × String :=
  let y : ℝ := (yield_percent : ℝ) / 100
  if b.maturity ≤ cd then (0, 0, 0, b.ccy, "—")
  else
    let price := secondaryDirtyRaw cd b y
    if ¬(0 < b.couponRate ∧ 0 < b.freq) then
      (round2R price, 0, round2R price, b.ccy, "SIM")
    else if b.maturity - cd ≤ 182 ∨ futureDates b cd = [b.maturity] then
      let ai : ℝ := (accrued_interest cd b : ℝ)
      (round2R price, ai, round2R (price - ai), b.ccy, "SIM")
    else
      let p := round2R price
      let ai : ℝ := (accrued_interest cd b : ℝ)
      (p, ai, round2R (p - ai), b.ccy, "YTM")

/-- The unrounded dirty price computed by `primary_price_from_yield_minfin`
(lines 195-223 of the source) for a not-yet-matured bond: zero-coupon SIM,
or the Minfin sum where each future date `d` contributes
`SD / DF` plus, when `d` is the maturity date, `par / DF`, with
`DF = (1 + y/freq) ^ ((d - cd) / KDP0)`. -/
noncomputable def primaryDirtyRaw (cd : ℤ) (b : Bond) (y : ℝ) : ℝ :=
  if ¬(0 < b.couponRate ∧ 0 < b.freq) then
    (b.par : ℝ) / (1 + y * (((b.maturity - cd : ℤ) : ℝ) / 365))
  else
    let SD : ℝ := (b.par : ℝ) * (b.couponRate : ℝ) / (b.freq : ℝ)
    let future := futureDates b cd
    let pk := prevAndKdp0 (full_coupon_schedule b) (future.headD 0) b.freq
    let base : ℝ := 1 + y / (b.freq : ℝ)
    (future.map (fun d =>
      SD / base ^ (((d - cd : ℤ) : ℝ) / ((pk.2 : ℤ) : ℝ))
        + if d = b.maturity then
            (b.par : ℝ) / base ^ (((d - cd : ℤ) : ℝ) / ((pk.2 : ℤ) : ℝ))
          else 0)).sum

/-- Source `primary_price_from_yield_minfin(calc_date, isin, yield_percent, df)`; returns `(dirty, AI, clean, currency, formula)`. -/
noncomputable def primary_price_from_yield_minfin (cd : ℤ) (b : Bond)
    (yield_percent : ℚ) : ℝ × ℝ × ℝ × String × String :=
  let y : ℝ := (yield_percent : ℝ) / 100
  if b.maturity ≤ cd then (0, 0, 0, b.ccy, "—")
  else if ¬(0 < b.couponRate ∧ 0 < b.freq) then
    let price := primaryDirtyRaw cd b y
    (round2R price, 0, round2R price, b.ccy, "SIM")
  else if futureDates b cd = [] then (0, 0, 0, b.ccy, "MinFin")
  else
    let dirty := round2R (primaryDirtyRaw cd b y)
    let ai : ℝ := (accrued_interest cd b : ℝ)
    (dirty, ai, round2R (dirty - ai), b.ccy, "MinFin")

/-- Result record of `trade_outcome` (the source's output dict, minus the
purely presentational string formatting). -/
structure TradeOut where
  currency : String
  buy_price_dirty : ℝ
  sell_price_dirty : ℝ
  coupons_received : List (ℤ × ℚ)
  coupons_total : ℚ
  profit_abs : ℝ
  profit_ann_pct : Option ℝ
  days_held : ℤ

/-- Source `trade_outcome(isin, buy_date, buy_yield_percent, sell_date,
sell_yield_percent, df)`. -/
noncomputable def trade_outcome (b : Bond) (buy_date : ℤ) (buy_yield : ℚ)
    (sell_date : ℤ) (sell_yield : ℚ) : Except String TradeOut :=
  if sell_date ≤ buy_date then .error "Дата продажу має бути пізніше дати покупки."
  else
    let buyR := secondary_price_from_yield buy_date b buy_yield
    let sellR := secondary_price_from_yield sell_date b sell_yield
    let cps := (coupons_between b buy_date sell_date).1
    let coupons_total := round2 (cps.map Prod.snd).sum
    let profit_abs := round2R (sellR.1 + (coupons_total : ℝ) - buyR.1)
    let days_held := sell_date - buy_date
    let profit_ann :=
      if 0 < days_held then
        some (round2R (profit_abs / buyR.1 * (365 / (days_held : ℝ)) * 100))
      else none
    .ok ⟨buyR.2.2.2.1, buyR.1, sellR.1, cps, coupons_total, profit_abs,
      profit_ann, days_held⟩

/-! Spec-side formulas, written from the specification's wording for the
refinement comparisons (secondary YTM, §4.3; primary Minfin, §4.3). -/

/-- Specification formula, secondary YTM: the sum of every future coupon
discounted by `(1+y)^(days/365)` plus, as a separate term, the redemption
amount (par) discounted to maturity. -/
noncomputable def specSecondaryYtmDirty (cd : ℤ) (b : Bond) (y : ℝ) : ℝ :=
  ((futureDates b cd).map (fun d =>
      (b.par : ℝ) * (b.couponRate : ℝ) / (b.freq : ℝ)
        / (1 + y) ^ (((d - cd : ℤ) : ℝ) / 365))).sum
    + (b.par : ℝ) / (1 + y) ^ (((b.maturity - cd : ℤ) : ℝ) / 365)

/-- Specification formula, primary Minfin: with `KDP0` the length of the
current coupon period (same boundary lookup as the accrued-interest
calculator) and `DF(DD) = (1 + y/k) ^ (DD / KDP0)`, the dirty price is
`Σ couponAmount / DF_i + parValue / DF_maturity`. -/
noncomputable def specMinfinDirty (cd : ℤ) (b : Bond) (y : ℝ) : ℝ :=
  let SD : ℝ := (b.par : ℝ) * (b.couponRate : ℝ) / (b.freq : ℝ)
  let future := futureDates b cd
  let kdp0 : ℝ := (((prevAndKdp0 (full_coupon_schedule b) (future.headD 0) b.freq).2 : ℤ) : ℝ)
  let base : ℝ := 1 + y / (b.freq : ℝ)
  (future.map (fun d => SD / base ^ (((d - cd : ℤ) : ℝ) / kdp0))).sum
    + (b.par : ℝ) / base ^ (((b.maturity - cd : ℤ) : ℝ) / kdp0)

/-! Concrete instruments used by the witnesses and counterexamples. -/

/-- Semiannual 16% coupon bond, par 1000, issued day 0, maturing day 364;
no row-supplied coupon dates, so the maturity-anchored fallback applies and
the schedule is `[0, 182, 364]`. -/
def bondA : Bond := ⟨[], 1000, "UAH", 16 / 100, 2, 0, 364⟩

/-- Semiannual 16% coupon bond whose row supplies the two explicit coupon
dates 100 and 300, with maturity on day 400: the row dates are used as-is
and the schedule is `[100, 300, 400]`. -/
def bondB : Bond := ⟨[100, 300], 1000, "UAH", 16 / 100, 2, 0, 400⟩

/-- Zero-coupon bond, par 1000, maturing day 365. -/
def bondZ : Bond := ⟨[], 1000, "UAH", 0, 0, 0, 365⟩

/-! Structural lemmas about the coupon schedule. -/

theorem pairwise_lt_of_sorted_nodup {l : List ℤ}
    (hs : l.Sorted (· ≤ ·)) (hn : l.Nodup) : l.Pairwise (· < ·) :=
  (hs.and hn).imp fun h => lt_of_le_of_ne h.1 h.2

theorem sortedDedup_pairwise (l : List ℤ) : (sortedDedup l).Pairwise (· < ·) := by
  apply pairwise_lt_of_sorted_nodup
  · exact List.sorted_insertionSort _ _
  · exact ((List.perm_insertionSort _ _).nodup_iff).mpr l.nodup_dedup

theorem mem_fallbackLoop_le {issue : ℤ} {step : ℕ} :
    ∀ {fuel : ℕ} {d x : ℤ}, x ∈ fallbackLoop issue step fuel d → x ≤ d := by
  intro fuel
  induction fuel with
  | zero => intro d x hx; simp [fallbackLoop] at hx
  | succ n ih =>
    intro d x hx
    simp only [fallbackLoop] at hx
    split at hx
    · simp at hx
    · rcases List.mem_append.mp hx with h | h
      · exact le_trans (ih h) (by omega)
      · simp at h; omega

theorem fallbackLoop_pairwise {issue : ℤ} {step : ℕ} (hstep : 0 < step) :
    ∀ (fuel : ℕ) (d : ℤ), (fallbackLoop issue step fuel d).Pairwise (· < ·) := by
  intro fuel
  induction fuel with
  | zero => intro d; simp [fallbackLoop]
  | succ n ih =>
    intro d
    simp only [fallbackLoop]
    split
    · simp
    · rw [List.pairwise_append]
      refine ⟨ih _, by simp, ?_⟩
      intro x hx y hy
      simp at hy
      subst hy
      have := mem_fallbackLoop_le hx
      omega

theorem mem_fallbackLoop_dvd {issue : ℤ} {step : ℕ} :
    ∀ {fuel : ℕ} {d x : ℤ}, x ∈ fallbackLoop issue step fuel d → (step : ℤ) ∣ (d - x) := by
  intro fuel
  induction fuel with
  | zero => intro d x hx; simp [fallbackLoop] at hx
  | succ n ih =>
    intro d x hx
    simp only [fallbackLoop] at hx
    split at hx
    · simp at hx
    · rcases List.mem_append.mp hx with h | h
      · have hd := ih h
        have : d - x = (d - step - x) + step := by ring
        rw [this]
        exact dvd_add hd (dvd_refl _)
      · simp at h; simp [h]

theorem fallbackStep_pos (freq : ℕ) : 0 < fallbackStep freq := by
  unfold fallbackStep; split <;> omega

theorem fallback_coupon_dates_pairwise (issue maturity : ℤ) (freq : ℕ) :
    (fallback_coupon_dates issue maturity freq).Pairwise (· < ·) :=
  fallbackLoop_pairwise (fallbackStep_pos freq) _ _

theorem schedule_pairwise (b : Bond) :
    (full_coupon_schedule b).Pairwise (· < ·) := by
  unfold full_coupon_schedule
  set dates := sortedDedup b.rowDates with hdates
  set D : List ℤ := if dates.length < 2 then
      fallback_coupon_dates b.issue b.maturity (if b.freq = 0 then 2 else b.freq)
    else dates with hD
  have hDp : D.Pairwise (· < ·) := by
    rw [hD]
    split
    · exact fallback_coupon_dates_pairwise _ _ _
    · exact sortedDedup_pairwise _
  by_cases hmem : b.maturity ∈ D
  · simpa [hmem] using hDp
  · have hsort : (List.insertionSort (· ≤ ·) (D ++ [b.maturity])).Sorted (· ≤ ·) :=
      List.sorted_insertionSort _ _
    have hnd : (D ++ [b.maturity]).Nodup := by
      rw [List.nodup_append]
      exact ⟨hDp.imp ne_of_lt, List.nodup_singleton _, by simpa using hmem⟩
    have hnd2 : (List.insertionSort (· ≤ ·) (D ++ [b.maturity])).Nodup :=
      ((List.perm_insertionSort _ _).nodup_iff).mpr hnd
    simpa [hmem] using pairwise_lt_of_sorted_nodup hsort hnd2

theorem schedule_nodup (b : Bond) : (full_coupon_schedule b).Nodup :=
  (schedule_pairwise b).imp ne_of_lt

theorem maturity_mem_schedule (b : Bond) : b.maturity ∈ full_coupon_schedule b := by
  unfold full_coupon_schedule
  set D : List ℤ := if (sortedDedup b.rowDates).length < 2 then
      fallback_coupon_dates b.issue b.maturity (if b.freq = 0 then 2 else b.freq)
    else sortedDedup b.rowDates with hD
  by_cases hmem : b.maturity ∈ D
  · rw [if_pos hmem]; exact hmem
  · have hm2 : b.maturity ∈ D ++ [b.maturity] := by simp
    rw [if_neg hmem]
    exact ((List.perm_insertionSort (· ≤ ·) (D ++ [b.maturity])).mem_iff).mpr hm2

theorem mem_futureDates {b : Bond} {cd d : ℤ} :
    d ∈ futureDates b cd ↔ d ∈ full_coupon_schedule b ∧ cd ≤ d := by
  simp [futureDates, List.mem_filter]

theorem maturity_mem_futureDates {b : Bond} {cd : ℤ} (h : cd ≤ b.maturity) :
    b.maturity ∈ futureDates b cd :=
  mem_futureDates.mpr ⟨maturity_mem_schedule b, h⟩

theorem futureDates_nodup (b : Bond) (cd : ℤ) : (futureDates b cd).Nodup :=
  (schedule_nodup b).filter _

theorem futureDates_ne_nil {b : Bond} {cd : ℤ} (h : cd ≤ b.maturity) :
    futureDates b cd ≠ [] :=
  List.ne_nil_of_mem (maturity_mem_futureDates h)

theorem nomStep_pos (freq : ℕ) : 0 < nomStep freq := by
  unfold nomStep
  have : 0 < max 1 (365 / freq) := by omega
  exact_mod_cast this

theorem filter_cons_of_mem {l : List ℤ} (hp : l.Pairwise (· < ·)) {cd : ℤ}
    (h : cd ∈ l) : ∃ rest, l.filter (fun d => cd ≤ d) = cd :: rest := by
  induction l with
  | nil => simp at h
  | cons a t ih =>
    rcases List.mem_cons.mp h with rfl | ht
    · exact ⟨t.filter (fun d => cd ≤ d), by simp [List.filter_cons]⟩
    · have hlt : a < cd := List.rel_of_pairwise_cons hp ht
      obtain ⟨rest, hr⟩ := ih hp.of_cons ht
      refine ⟨rest, ?_⟩
      rw [List.filter_cons, if_neg (by simp; omega), hr]

theorem prevAndKdp0_of_mem {l : List ℤ} (hp : l.Pairwise (· < ·)) {cd : ℤ}
    (h : cd ∈ l) (freq : ℕ) :
    ∃ prev, prevAndKdp0 l cd freq = (prev, cd - prev) ∧ prev < cd := by
  have hidx : l.indexOf cd < l.length := List.indexOf_lt_length.mpr h
  have hget : l[l.indexOf cd] = cd := List.getElem_indexOf hidx
  simp only [prevAndKdp0]
  by_cases h0 : l.indexOf cd = 0
  · rw [if_pos h0]
    by_cases h2 : 2 ≤ l.length
    · rw [if_pos h2]
      have h1lt : 1 < l.length := h2
      have h0lt : 0 < l.length := by omega
      have e0 : l.getD 0 0 = l[0] := List.getD_eq_getElem l 0 h0lt
      have e1 : l.getD 1 0 = l[1] := List.getD_eq_getElem l 0 h1lt
      have hl0 : l[0] = cd := by
        have := hget
        simp only [h0] at this
        exact this
      have hlt01 : l[0] < l[1] :=
        List.pairwise_iff_getElem.mp hp 0 1 h0lt h1lt (by omega)
      rw [e0, e1, hl0]
      have hpos : 0 < l[1] - cd := by omega
      refine ⟨cd - (l[1] - cd), ?_, by omega⟩
      rw [if_neg (by omega)]
    · rw [if_neg h2]
      have hpos := nomStep_pos freq
      refine ⟨cd - nomStep freq, ?_, by omega⟩
      rw [if_neg (by omega)]
  · rw [if_neg h0]
    have hm1 : l.indexOf cd - 1 < l.length := by omega
    have e : l.getD (l.indexOf cd - 1) 0 = l[l.indexOf cd - 1] :=
      List.getD_eq_getElem l 0 hm1
    have hltp : l[l.indexOf cd - 1] < l[l.indexOf cd] :=
      List.pairwise_iff_getElem.mp hp _ _ hm1 hidx (by omega)
    rw [e]
    rw [hget] at hltp
    refine ⟨l[l.indexOf cd - 1], ?_, hltp⟩
    rw [if_neg (by omega)]

theorem round2_eq_of_mul_eq (x : ℚ) (n : ℤ) (h : 100 * x = (n : ℚ)) :
    round2 x = (n : ℚ) / 100 := by
  rw [round2, h, round_intCast]

/-- C6 (amended): `accrued_interest` takes `nextCoupon` to be the earliest
schedule date at or after (`>=`, not strictly after) the reference date, so
when the reference date is exactly a schedule date the elapsed fraction of
the current period is 1 and the accrued interest equals the full rounded
coupon amount `round2 (par * couponRate / freq)` — not 0. -/
theorem accrued_on_coupon_date_full_coupon (cd : ℤ) (b : Bond)
    (hc : 0 < b.couponRate) (hf : 0 < b.freq)
    (hmem : cd ∈ full_coupon_schedule b) :
    accrued_interest cd b = round2 (b.par * b.couponRate / (b.freq : ℚ)) := by
  have hp := schedule_pairwise b
  obtain ⟨rest, hr⟩ := filter_cons_of_mem hp hmem
  obtain ⟨prev, hpk, hlt⟩ := prevAndKdp0_of_mem hp hmem b.freq
  have hcond : ¬(b.couponRate ≤ 0 ∨ b.freq = 0) := by push_neg; exact ⟨hc, by omega⟩
  unfold accrued_interest
  rw [if_neg hcond, hr]
  simp only [hpk]
  have hmax : max (cd - prev) 0 = cd - prev := max_eq_left (by omega)
  rw [hmax, min_self]
  have h2 : ((cd - prev : ℤ) : ℚ) ≠ 0 := by
    have hne : cd - prev ≠ 0 := by omega
    exact_mod_cast hne
  rw [div_self h2, mul_one]

/-- C6 witness: `bondA` has schedule `[0, 182, 364]`; on the coupon date 182
the accrued interest is the full coupon 80 (=`round2 (1000 * (16/100) / 2)`),
by the C6 theorem applied at that input. -/
theorem accrued_on_coupon_date_full_coupon_witness :
    accrued_interest 182 bondA = round2 (bondA.par * bondA.couponRate / (bondA.freq : ℚ)) :=
  accrued_on_coupon_date_full_coupon 182 bondA (by norm_num [bondA]) (by decide) (by decide)

/-- C6 counterexample: the claim says accrued interest is 0 when the
reference date is exactly a coupon date; on `bondA` at its coupon date 182
the source computes the full coupon 80 instead. -/
theorem accrued_nonzero_on_coupon_date :
    (182 : ℤ) ∈ full_coupon_schedule bondA ∧
    accrued_interest 182 bondA = 80 ∧ ¬ (accrued_interest 182 bondA = 0) := by
  have hs : full_coupon_schedule bondA = [0, 182, 364] := rfl
  have hval : accrued_interest 182 bondA = 80 := by
    unfold accrued_interest
    rw [if_neg (by norm_num [bondA])]
    rw [hs]
    have hfilter : List.filter (fun d => decide ((182:ℤ) ≤ d)) [0, 182, 364] = [182, 364] := rfl
    rw [hfilter]
    have hpk : prevAndKdp0 [0, 182, 364] 182 bondA.freq = (0, 182) := rfl
    simp only [hpk]
    have h80 : bondA.par * bondA.couponRate / (bondA.freq : ℚ) *
        ((min (max ((182:ℤ) - 0) 0) 182 : ℤ) : ℚ) / ((182:ℤ) : ℚ) = 80 := by
      norm_num [bondA]
    rw [round2_eq_of_mul_eq _ 8000 (by norm_num [bondA])]
    norm_num
  exact ⟨by decide, hval, by rw [hval]; norm_num⟩

/-- C10: for a reference date at or after maturity, both forward pricing
functions return the sentinel `(0.0, 0.0, 0.0, currency, "—")` — dirty,
accrued and clean all 0.0, the bond's currency, and the em-dash placeholder
formula label — rather than raising an error. -/
theorem matured_bond_returns_sentinel (cd : ℤ) (b : Bond) (yp : ℚ)
    (h : b.maturity ≤ cd) :
    secondary_price_from_yield cd b yp = (0, 0, 0, b.ccy, "—") ∧
    primary_price_from_yield_minfin cd b yp = (0, 0, 0, b.ccy, "—") := by
  constructor
  · unfold secondary_price_from_yield
    rw [if_pos h]
  · unfold primary_price_from_yield_minfin
    rw [if_pos h]

/-- C10 witness: the sentinel at a concrete matured input (`bondA` matures
on day 364; pricing is requested on day 400). -/
theorem matured_bond_returns_sentinel_witness :
    secondary_price_from_yield 400 bondA 15 = (0, 0, 0, bondA.ccy, "—") ∧
    primary_price_from_yield_minfin 400 bondA 15 = (0, 0, 0, bondA.ccy, "—") :=
  matured_bond_returns_sentinel 400 bondA 15 (by decide)

/-- C3 counterexample: the claim says a pricing request at or after maturity
is rejected as a typed failure for `secondary_price_from_yield` and
`primary_price_from_yield_minfin` as well; in fact both return the ordinary
sentinel tuple `(0, 0, 0, "UAH", "—")` at such an input (day 500, maturity
day 364) — a successful return, not a propagated failure. -/
theorem matured_pricing_returns_value_not_failure :
    secondary_price_from_yield 500 bondA 15 = (0, 0, 0, "UAH", "—") ∧
    primary_price_from_yield_minfin 500 bondA 15 = (0, 0, 0, "UAH", "—") := by
  constructor
  · unfold secondary_price_from_yield
    rw [if_pos (by decide : bondA.maturity ≤ 500)]
    rfl
  · unfold primary_price_from_yield_minfin
    rw [if_pos (by decide : bondA.maturity ≤ 500)]
    rfl


/-- C3 (amended): `yields_from_price` rejects a reference date at or after
maturity with a `ValueError` before any arithmetic, and `trade_outcome`
rejects a sell date at or before the buy date likewise; the two forward
pricing functions do not fail there — they return the matured sentinel
`(0, 0, 0, currency, "—")` instead. -/
theorem invalid_date_rejection_behavior (b : Bond) (cd : ℤ) (price : ℚ)
    (buy sell : ℤ) (yb ys : ℚ) (hcd : b.maturity ≤ cd) (hbs : sell ≤ buy) :
    yields_from_price cd b price = .error "Дата розрахунку ≥ дати погашення." ∧
    trade_outcome b buy yb sell ys = .error "Дата продажу має бути пізніше дати покупки." ∧
    ∀ yp : ℚ, secondary_price_from_yield cd b yp = (0, 0, 0, b.ccy, "—") ∧
      primary_price_from_yield_minfin cd b yp = (0, 0, 0, b.ccy, "—") := by
  refine ⟨?_, ?_, ?_⟩
  · unfold yields_from_price
    rw [if_pos hcd]
  · unfold trade_outcome
    rw [if_pos hbs]
  · intro yp
    constructor
    · unfold secondary_price_from_yield
      rw [if_pos hcd]
    · unfold primary_price_from_yield_minfin
      rw [if_pos hcd]

/-- C3 witness: the amended behavior at concrete inputs — yields requested
on day 500 for `bondA` (maturity 364) error out, and a trade with sell day
5 ≤ buy day 10 errors out. -/
theorem invalid_date_rejection_behavior_witness :
    yields_from_price 500 bondA 100 = .error "Дата розрахунку ≥ дати погашення." ∧
    trade_outcome bondA 10 15 5 14 = .error "Дата продажу має бути пізніше дати покупки." :=
  ⟨(invalid_date_rejection_behavior bondA 500 100 10 5 15 14 (by decide) (by decide)).1,
   (invalid_date_rejection_behavior bondA 500 100 10 5 15 14 (by decide) (by decide)).2.1⟩

/-- C4 (amended): when a bond row supplies fewer than two explicit coupon
dates (so the maturity-anchored fallback generates the schedule) and the
frequency is semiannual (2, or missing and defaulted to 2), every schedule
date `d` satisfies `(maturityDate - d) % 182 = 0`.  When the row supplies
two or more explicit dates they are used as-is and need not satisfy the
grid invariant (see the counterexample). -/
theorem grid_invariant_fallback_schedule (b : Bond)
    (hrow : (sortedDedup b.rowDates).length < 2) (hfreq : b.freq = 2 ∨ b.freq = 0) :
    ∀ d ∈ full_coupon_schedule b, (b.maturity - d) % 182 = 0 := by
  intro d hd
  have hstep : fallbackStep (if b.freq = 0 then 2 else b.freq) = 182 := by
    rcases hfreq with h | h <;> simp [h, fallbackStep]
  have hdvd : ∀ x ∈ fallback_coupon_dates b.issue b.maturity
      (if b.freq = 0 then 2 else b.freq), (182 : ℤ) ∣ (b.maturity - x) := by
    intro x hx
    have hdv := mem_fallbackLoop_dvd hx
    rwa [hstep] at hdv
  simp only [full_coupon_schedule] at hd
  rw [if_pos hrow] at hd
  set D := fallback_coupon_dates b.issue b.maturity (if b.freq = 0 then 2 else b.freq)
    with hD
  have hmemD : d ∈ D ∨ d = b.maturity := by
    by_cases hmem : b.maturity ∈ D
    · rw [if_pos hmem] at hd; exact Or.inl hd
    · rw [if_neg hmem] at hd
      have := ((List.perm_insertionSort (· ≤ ·) (D ++ [b.maturity])).mem_iff).mp hd
      rcases List.mem_append.mp this with h | h
      · exact Or.inl h
      · simp at h; exact Or.inr h
  rcases hmemD with h | h
  · exact Int.emod_eq_zero_of_dvd (hdvd d h)
  · simp [h]

/-- C4 witness: `bondA` (no row dates, semiannual) has the fallback schedule
`[0, 182, 364]`; the theorem applied at date 182 gives `(364 - 182) % 182 = 0`. -/
theorem grid_invariant_fallback_schedule_witness :
    (bondA.maturity - 182) % 182 = 0 :=
  grid_invariant_fallback_schedule bondA (by decide) (by decide) 182 (by decide)

/-- C4 counterexample: `bondB` carries the two row-supplied coupon dates 100
and 300 with maturity 400, so the pricing schedule is `[100, 300, 400]` and
date 100 violates `(maturity - d) % 182 = 0` (`300 % 182 = 118`): the
schedule is not derived purely from the maturity grid for every bond. -/
theorem grid_invariant_fails_for_row_dates :
    full_coupon_schedule bondB = [100, 300, 400] ∧
    ¬ (∀ d ∈ full_coupon_schedule bondB, (bondB.maturity - d) % 182 = 0) := by
  constructor
  · rfl
  · intro hall
    have := hall 100 (by decide)
    simp [bondB] at this

/-- C1 (code-bug evidence): for every coupon-bearing bond priced before
maturity in the YTM regime (more than 182 days to maturity and more than
the final payment outstanding), `yields_from_price` returns the label
`"SIM (fallback)"` for both market conventions and the SIM formula value
for the yield — the bisection solver is never consulted, because the
source invokes `_solve_root` with the nonexistent keyword argument `xtol`,
which raises `TypeError` and lands in the `except` branch.  Hence
`F⁻¹(F(y)) ≈ y` cannot hold for the secondary-YTM and primary-Minfin
formulas. -/
theorem yields_from_price_always_sim_fallback (cd : ℤ) (b : Bond) (price : ℚ)
    (hc : 0 < b.couponRate) (hf : 0 < b.freq) (hm : cd < b.maturity)
    (hlong : ¬(b.maturity - cd ≤ 182 ∨ futureDates b cd = [b.maturity])) :
    yields_from_price cd b price = .ok
      ⟨round2 (((b.par + b.par * b.couponRate / (b.freq : ℚ)) / price - 1)
          * (365 / ((b.maturity - cd : ℤ) : ℚ)) * 100), "SIM (fallback)",
        round2 (((b.par + b.par * b.couponRate / (b.freq : ℚ)) / price - 1)
          * (365 / ((b.maturity - cd : ℤ) : ℚ)) * 100), "SIM (fallback)", b.ccy⟩ := by
  simp only [yields_from_price]
  rw [if_neg (not_le.mpr hm), if_pos (And.intro hc hf), if_neg hlong]

/-- C1 witness: `bondA` at day 0 (364 days to maturity, three future
payments) with dirty price 1050: both returned labels are the fallback. -/
theorem yields_from_price_always_sim_fallback_witness :
    yields_from_price 0 bondA 1050 = .ok
      ⟨round2 (((bondA.par + bondA.par * bondA.couponRate / (bondA.freq : ℚ)) / 1050 - 1)
          * (365 / ((bondA.maturity - 0 : ℤ) : ℚ)) * 100), "SIM (fallback)",
        round2 (((bondA.par + bondA.par * bondA.couponRate / (bondA.freq : ℚ)) / 1050 - 1)
          * (365 / ((bondA.maturity - 0 : ℤ) : ℚ)) * 100), "SIM (fallback)", bondA.ccy⟩ :=
  yields_from_price_always_sim_fallback 0 bondA 1050
    (by norm_num [bondA]) (by decide) (by decide) (by decide)

theorem bracketLoop_spec (f : ℚ → ℚ) (lo e flo : ℚ) :
    ∀ (n : ℕ) (hi : ℚ), ∃ k ≤ n,
      bracketLoop f lo e flo hi (f hi) n = (lo, hi * e ^ k, flo, f (hi * e ^ k)) ∧
      (¬(flo * f (hi * e ^ k) > 0) ∨ k = n) := by
  intro n
  induction n with
  | zero =>
    intro hi
    exact ⟨0, le_refl 0, by simp [bracketLoop], Or.inr rfl⟩
  | succ m ih =>
    intro hi
    by_cases hsign : flo * f hi > 0
    · obtain ⟨k, hk, heq, hcond⟩ := ih (hi * e)
      have harg : hi * e * e ^ k = hi * e ^ (k + 1) := by ring
      refine ⟨k + 1, by omega, ?_, ?_⟩
      · simp only [bracketLoop, if_pos hsign]
        rw [heq, harg]
      · rcases hcond with h | h
        · exact Or.inl (by rwa [harg] at h)
        · exact Or.inr (by omega)
    · exact ⟨0, by omega, by simp [bracketLoop, if_neg hsign], Or.inl (by simpa using hsign)⟩

/-- C9: the root finder expands the bracket by multiplying `hi` by 1.5 at
most 25 times, stopping as soon as the endpoint values change sign; if the
final bracket still has no sign change, `_solve_root` returns the midpoint
of the final bracket as a best-effort value instead of raising an error;
the bisection loop returns the midpoint as soon as `|f(mid)| < tol`, and
when its iteration budget runs out it returns the midpoint of the current
bracket — so the solver is total and never fails for a total `f`. -/
theorem solve_root_bracket_expansion_and_fallback (f : ℚ → ℚ) (lo hi tol : ℚ)
    (maxiter : ℕ) :
    (∃ k ≤ 25, bracket f lo hi (3 / 2) 25
        = (lo, hi * (3 / 2) ^ k, f lo, f (hi * (3 / 2) ^ k)) ∧
        (¬(f lo * f (hi * (3 / 2) ^ k) > 0) ∨ k = 25)) ∧
    ((bracket f lo hi (3 / 2) 25).2.2.1 * (bracket f lo hi (3 / 2) 25).2.2.2 > 0 →
      solve_root f lo hi tol maxiter
        = ((bracket f lo hi (3 / 2) 25).1 + (bracket f lo hi (3 / 2) 25).2.1) / 2) ∧
    (∀ (n : ℕ) (a c fa fc : ℚ), |f ((a + c) / 2)| < tol →
      bisectLoop f tol (n + 1) a c fa fc = (a + c) / 2) ∧
    (∀ (a c fa fc : ℚ), bisectLoop f tol 0 a c fa fc = (a + c) / 2) := by
  refine ⟨?_, ?_, ?_, ?_⟩
  · exact bracketLoop_spec f lo (3 / 2) (f lo) 25 hi
  · intro hpos
    simp only [solve_root]
    rw [if_pos hpos]
  · intro n a c fa fc htol
    simp only [bisectLoop]
    rw [if_pos (Or.inl htol)]
  · intro a c fa fc
    rfl

/-- C9 witness: the early-`tol` stop of the bisection loop at a concrete
input, via the theorem. -/
theorem solve_root_bracket_expansion_and_fallback_witness :
    bisectLoop (fun x => x) 1 1 0 0 0 0 = 0 := by
  have h := (solve_root_bracket_expansion_and_fallback (fun x => x) 0 0 1 0).2.2.1
    0 0 0 0 0 (by norm_num)
  simpa using h

/-- C2 counterexample: `bondA` (coupon 80 per period, schedule
`[0, 182, 364]`, maturity 364) bought on day 100 and sold on day 400, so
`buyDate < maturity ≤ sellDate`: the realized coupon list is
`[(182, 80), (364, 80)]` — only coupon amounts, with no event equal to the
par repayment 1000 — and `couponsTotal = 160 < par`, so the redemption is
not part of `couponsTotal`. -/
theorem trade_outcome_redemption_not_in_coupons :
    (100 : ℤ) < bondA.maturity ∧ bondA.maturity ≤ 400 ∧
    (trade_outcome bondA 100 15 400 14).toOption.map TradeOut.coupons_received
      = some [(182, 80), (364, 80)] ∧
    (trade_outcome bondA 100 15 400 14).toOption.map TradeOut.coupons_total
      = some 160 ∧
    (80 : ℚ) ≠ bondA.par ∧ (160 : ℚ) < bondA.par := by
  have hSD : round2 (bondA.par * bondA.couponRate / (bondA.freq : ℚ)) = 80 := by
    rw [round2_eq_of_mul_eq _ 8000 (by norm_num [bondA])]
    norm_num
  have hcb : coupons_between bondA 100 400 = ([(182, 80), (364, 80)], "UAH") := by
    unfold coupons_between
    rw [if_neg (by norm_num [bondA]), hSD]
    rfl
  have htot : round2 ((([((182:ℤ), (80:ℚ)), (364, 80)].map Prod.snd).sum)) = 160 := by
    rw [round2_eq_of_mul_eq _ 16000 (by norm_num)]
    norm_num
  refine ⟨by decide, by decide, ?_, ?_, by norm_num [bondA], by norm_num [bondA]⟩
  · simp only [trade_outcome]
    rw [if_neg (by decide : ¬((400:ℤ) ≤ 100))]
    simp [Except.toOption, hcb]
  · simp only [trade_outcome]
    rw [if_neg (by decide : ¬((400:ℤ) ≤ 100))]
    simp only [Except.toOption, hcb, Option.map]
    rw [round2_eq_of_mul_eq _ 16000 (by norm_num)]
    norm_num

/-- C2 (amended): for `buyDate < sellDate` the trade succeeds and its
`couponsReceived` are exactly the schedule dates `d` with
`buyDate < d ≤ sellDate`, each carrying only the rounded per-period coupon
amount (never the par repayment); `couponsTotal` is their rounded sum,
`profitAbsolute = round2(sellDirty - buyDirty + couponsTotal)`, and
`daysHeld = sellDate - buyDate > 0`. -/
theorem trade_outcome_coupons_and_profit (b : Bond) (buy sell : ℤ) (yb ys : ℚ)
    (h : buy < sell) :
    ∃ r, trade_outcome b buy yb sell ys = .ok r ∧
      r.coupons_received = (coupons_between b buy sell).1 ∧
      (∀ p ∈ r.coupons_received, buy < p.1 ∧ p.1 ≤ sell ∧
        p.1 ∈ full_coupon_schedule b ∧
        p.2 = round2 (b.par * b.couponRate / (b.freq : ℚ))) ∧
      r.coupons_total = round2 ((r.coupons_received.map Prod.snd).sum) ∧
      r.profit_abs = round2R ((secondary_price_from_yield sell b ys).1
        + (r.coupons_total : ℝ) - (secondary_price_from_yield buy b yb).1) ∧
      r.days_held = sell - buy ∧ 0 < r.days_held := by
  simp only [trade_outcome]
  rw [if_neg (not_le.mpr h)]
  refine ⟨_, rfl, rfl, ?_, rfl, rfl, rfl, show (0:ℤ) < sell - buy by omega⟩
  intro p hp
  unfold coupons_between at hp
  by_cases hzero : b.couponRate ≤ 0 ∨ b.freq = 0
  · rw [if_pos hzero] at hp
    simp at hp
  · rw [if_neg hzero] at hp
    simp only [List.mem_map, List.mem_filter] at hp
    obtain ⟨d, ⟨hdmem, hdcond⟩, rfl⟩ := hp
    simp only [decide_eq_true_eq] at hdcond
    exact ⟨hdcond.1, hdcond.2, hdmem, rfl⟩

/-- C2 witness: the trade of the counterexample succeeds with
`daysHeld = 300`, via the amended theorem. -/
theorem trade_outcome_coupons_and_profit_witness :
    (trade_outcome bondA 100 15 400 14).toOption.map TradeOut.days_held
      = some 300 := by
  obtain ⟨r, hr, _, _, _, _, hdays, _⟩ :=
    trade_outcome_coupons_and_profit bondA 100 400 15 14 (by decide)
  rw [hr]
  simp only [Except.toOption, Option.map]
  rw [hdays]
  norm_num

theorem secondary_eval_zero (cd : ℤ) (b : Bond) (yp : ℚ) (hm : cd < b.maturity)
    (hco : ¬(0 < b.couponRate ∧ 0 < b.freq)) :
    secondary_price_from_yield cd b yp
      = (round2R ((b.par : ℝ) / (1 + (yp : ℝ) / 100 * (((b.maturity - cd : ℤ) : ℝ) / 365))),
         0,
         round2R ((b.par : ℝ) / (1 + (yp : ℝ) / 100 * (((b.maturity - cd : ℤ) : ℝ) / 365))),
         b.ccy, "SIM") := by
  simp only [secondary_price_from_yield, secondaryDirtyRaw]
  rw [if_neg (not_le.mpr hm)]
  simp only [if_pos hco]

theorem secondary_eval_sim (cd : ℤ) (b : Bond) (yp : ℚ) (hm : cd < b.maturity)
    (hco : 0 < b.couponRate ∧ 0 < b.freq)
    (hshort : b.maturity - cd ≤ 182 ∨ futureDates b cd = [b.maturity]) :
    secondary_price_from_yield cd b yp
      = (round2R (((b.par : ℝ) + (b.par : ℝ) * (b.couponRate : ℝ) / (b.freq : ℝ))
            / (1 + (yp : ℝ) / 100 * (((b.maturity - cd : ℤ) : ℝ) / 365))),
         ((accrued_interest cd b : ℚ) : ℝ),
         round2R ((((b.par : ℝ) + (b.par : ℝ) * (b.couponRate : ℝ) / (b.freq : ℝ))
            / (1 + (yp : ℝ) / 100 * (((b.maturity - cd : ℤ) : ℝ) / 365)))
              - ((accrued_interest cd b : ℚ) : ℝ)),
         b.ccy, "SIM") := by
  simp only [secondary_price_from_yield, secondaryDirtyRaw]
  rw [if_neg (not_le.mpr hm)]
  simp only [if_neg (not_not_intro hco), if_pos hshort]

theorem secondary_eval_ytm (cd : ℤ) (b : Bond) (yp : ℚ) (hm : cd < b.maturity)
    (hco : 0 < b.couponRate ∧ 0 < b.freq)
    (hlong : ¬(b.maturity - cd ≤ 182 ∨ futureDates b cd = [b.maturity])) :
    secondary_price_from_yield cd b yp
      = (round2R (specSecondaryYtmDirty cd b ((yp : ℝ) / 100)),
         ((accrued_interest cd b : ℚ) : ℝ),
         round2R (round2R (specSecondaryYtmDirty cd b ((yp : ℝ) / 100))
           - ((accrued_interest cd b : ℚ) : ℝ)),
         b.ccy, "YTM") := by
  simp only [secondary_price_from_yield, secondaryDirtyRaw, specSecondaryYtmDirty]
  rw [if_neg (not_le.mpr hm)]
  simp only [if_neg (not_not_intro hco), if_neg hlong]

/-- C5 counterexample: on `bondA` at reference day 182 (exactly one step
before maturity) two future payments remain — the coupon falling on the
reference date itself and the final payment at maturity — yet the source
selects SIM (because `days_to_maturity <= 182`), not YTM as the claim
requires for two or more remaining future coupons. -/
theorem sim_selected_with_two_future_payments :
    (futureDates bondA 182).length = 2 ∧
    futureDates bondA 182 ≠ [bondA.maturity] ∧
    (0 : ℤ) < bondA.maturity - 182 ∧
    (secondary_price_from_yield 182 bondA 15).2.2.2.2 = "SIM" := by
  refine ⟨by decide, by decide, by decide, ?_⟩
  rw [secondary_eval_sim 182 bondA 15 (by decide) (by norm_num [bondA]) (by decide)]

/-- C5 (amended): secondary pricing uses SIM exactly when the bond is
zero-coupon, or at most 182 days remain to maturity, or the only remaining
payment is the redemption; it uses YTM otherwise (in particular more than
182 days must remain), discounting every future coupon and, separately, the
redemption amount — `specSecondaryYtmDirty` — with rounding only at the
return boundary; for `couponRate = 0` SIM is applied to par alone. -/
theorem secondary_formula_selection (cd : ℤ) (b : Bond) (yp : ℚ)
    (hm : cd < b.maturity) :
    ((secondary_price_from_yield cd b yp).2.2.2.2 = "YTM" ↔
      (0 < b.couponRate ∧ 0 < b.freq) ∧ 182 < b.maturity - cd ∧
        futureDates b cd ≠ [b.maturity]) ∧
    (b.couponRate = 0 →
      (secondary_price_from_yield cd b yp).2.2.2.2 = "SIM" ∧
      (secondary_price_from_yield cd b yp).1
        = round2R ((b.par : ℝ)
            / (1 + (yp : ℝ) / 100 * (((b.maturity - cd : ℤ) : ℝ) / 365)))) ∧
    ((0 < b.couponRate ∧ 0 < b.freq) →
      (b.maturity - cd ≤ 182 ∨ futureDates b cd = [b.maturity]) →
      (secondary_price_from_yield cd b yp).2.2.2.2 = "SIM" ∧
      (secondary_price_from_yield cd b yp).1
        = round2R (((b.par : ℝ) + (b.par : ℝ) * (b.couponRate : ℝ) / (b.freq : ℝ))
            / (1 + (yp : ℝ) / 100 * (((b.maturity - cd : ℤ) : ℝ) / 365)))) ∧
    ((0 < b.couponRate ∧ 0 < b.freq) →
      182 < b.maturity - cd → futureDates b cd ≠ [b.maturity] →
      (secondary_price_from_yield cd b yp).1
        = round2R (specSecondaryYtmDirty cd b ((yp : ℝ) / 100))) := by
  refine ⟨?_, ?_, ?_, ?_⟩
  · constructor
    · intro hlab
      by_cases hco : 0 < b.couponRate ∧ 0 < b.freq
      · by_cases hshort : b.maturity - cd ≤ 182 ∨ futureDates b cd = [b.maturity]
        · rw [secondary_eval_sim cd b yp hm hco hshort] at hlab
          simp at hlab
        · push_neg at hshort
          exact ⟨hco, by omega, hshort.2⟩
      · rw [secondary_eval_zero cd b yp hm hco] at hlab
        simp at hlab
    · rintro ⟨hco, hd, hne⟩
      have hlong : ¬(b.maturity - cd ≤ 182 ∨ futureDates b cd = [b.maturity]) := by
        push_neg
        exact ⟨by omega, hne⟩
      rw [secondary_eval_ytm cd b yp hm hco hlong]
  · intro hcr
    have hco : ¬(0 < b.couponRate ∧ 0 < b.freq) := by
      rintro ⟨hlt, _⟩
      rw [hcr] at hlt
      exact lt_irrefl 0 hlt
    rw [secondary_eval_zero cd b yp hm hco]
    exact ⟨rfl, rfl⟩
  · intro hco hshort
    rw [secondary_eval_sim cd b yp hm hco hshort]
    exact ⟨rfl, rfl⟩
  · intro hco hd hne
    have hlong : ¬(b.maturity - cd ≤ 182 ∨ futureDates b cd = [b.maturity]) := by
      push_neg
      exact ⟨by omega, hne⟩
    rw [secondary_eval_ytm cd b yp hm hco hlong]

/-- C5 witness: the amended selection rule instantiated on `bondA` at day 0
(YTM regime): the label of the secondary result is "YTM" iff the YTM-side
conditions hold, which they do here. -/
theorem secondary_formula_selection_witness :
    (secondary_price_from_yield 0 bondA 15).2.2.2.2 = "YTM" :=
  ((secondary_formula_selection 0 bondA 15 (by decide)).1).mpr
    ⟨⟨by norm_num [bondA], by decide⟩, by decide, by decide⟩

theorem sum_map_ite_of_mem {l : List ℤ} (hnd : l.Nodup) {m : ℤ} (hm : m ∈ l)
    (g : ℤ → ℝ) :
    (l.map (fun d => if d = m then g d else 0)).sum = g m := by
  induction l with
  | nil => simp at hm
  | cons a t ih =>
    have hnotmem : a ∉ t := (List.nodup_cons.mp hnd).1
    rcases List.mem_cons.mp hm with heq | hmt
    · subst heq
      simp only [List.map_cons, List.sum_cons, if_pos rfl]
      have hz : (t.map (fun d => if d = m then g d else 0)).sum = 0 := by
        apply List.sum_eq_zero
        intro x hx
        simp only [List.mem_map] at hx
        obtain ⟨d, hd, rfl⟩ := hx
        have hdm : d ≠ m := fun he => hnotmem (he ▸ hd)
        rw [if_neg hdm]
      rw [hz, add_zero, if_pos trivial]
    · have hne : a ≠ m := fun he => hnotmem (he ▸ hmt)
      simp only [List.map_cons, List.sum_cons, if_neg hne]
      rw [ih (List.nodup_cons.mp hnd).2 hmt, zero_add]

theorem primaryDirtyRaw_eq_spec (cd : ℤ) (b : Bond)
    (hco : 0 < b.couponRate ∧ 0 < b.freq) (hm : cd < b.maturity) (y : ℝ) :
    primaryDirtyRaw cd b y = specMinfinDirty cd b y := by
  simp only [primaryDirtyRaw, specMinfinDirty, if_neg (not_not_intro hco)]
  rw [List.sum_map_add]
  congr 1
  exact sum_map_ite_of_mem (futureDates_nodup b cd)
    (maturity_mem_futureDates (le_of_lt hm)) _

/-- C7: for every coupon-bearing bond and reference date before maturity,
`primary_price_from_yield_minfin` returns exactly the Minfin specification
formula `Σ couponAmount/DF_i + parValue/DF_maturity` with
`DF = (1 + y/k)^(DD/KDP0)` (`KDP0` from the same period lookup as the
accrued-interest calculator), rounded to 2 decimals only at the return
boundary, together with the separately reported accrued interest, the
clean price `round2(dirty - AI)`, the currency and the `"MinFin"` label. -/
theorem primary_minfin_matches_spec (cd : ℤ) (b : Bond) (yp : ℚ)
    (hco : 0 < b.couponRate ∧ 0 < b.freq) (hm : cd < b.maturity) :
    primary_price_from_yield_minfin cd b yp
      = (round2R (specMinfinDirty cd b ((yp : ℝ) / 100)),
         ((accrued_interest cd b : ℚ) : ℝ),
         round2R (round2R (specMinfinDirty cd b ((yp : ℝ) / 100))
           - ((accrued_interest cd b : ℚ) : ℝ)),
         b.ccy, "MinFin") := by
  simp only [primary_price_from_yield_minfin]
  rw [if_neg (not_le.mpr hm)]
  simp only [if_neg (not_not_intro hco), if_neg (futureDates_ne_nil (le_of_lt hm))]
  rw [primaryDirtyRaw_eq_spec cd b hco hm]

/-- C7 witness: the Minfin refinement instantiated on `bondA` at day 0 with
yield 15%. -/
theorem primary_minfin_matches_spec_witness :
    primary_price_from_yield_minfin 0 bondA 15
      = (round2R (specMinfinDirty 0 bondA ((15 : ℝ) / 100)),
         ((accrued_interest 0 bondA : ℚ) : ℝ),
         round2R (round2R (specMinfinDirty 0 bondA ((15 : ℝ) / 100))
           - ((accrued_interest 0 bondA : ℚ) : ℝ)),
         bondA.ccy, "MinFin") :=
  primary_minfin_matches_spec 0 bondA 15 ⟨by norm_num [bondA], by decide⟩ (by decide)

theorem prevAndKdp0_snd_pos (dates : List ℤ) (n : ℤ) (freq : ℕ) :
    0 < (prevAndKdp0 dates n freq).2 := by
  have key : ∀ p : ℤ, 0 < (if n - p ≤ 0 then nomStep freq else n - p) := by
    intro p
    split
    · exact nomStep_pos freq
    · exact not_le.mp (by assumption)
  simp only [prevAndKdp0]
  exact key _

theorem round2R_eq_of_mul_eq (x : ℝ) (n : ℤ) (h : 100 * x = (n : ℝ)) :
    round2R x = (n : ℝ) / 100 := by
  rw [round2R, h, round_intCast]

/-- C8 (amended): the unrounded dirty price computed by each pricing
formula (`secondaryDirtyRaw`: zero-coupon SIM, coupon SIM, YTM;
`primaryDirtyRaw`: zero-coupon SIM, Minfin) is strictly decreasing in the
yield over the admissible range (0.01, 1.00); the returned price, rounded
to 2 decimals, is therefore only weakly decreasing (see the
counterexample for the failure of strictness after rounding). -/
theorem dirty_price_strictly_decreasing_in_yield (cd : ℤ) (b : Bond)
    (y₁ y₂ : ℝ) (hm : cd < b.maturity) (hpar : 0 < b.par)
    (hcr : 0 ≤ b.couponRate) (hy1 : 1 / 100 < y₁) (h12 : y₁ < y₂)
    (hy2 : y₂ < 1) :
    secondaryDirtyRaw cd b y₂ < secondaryDirtyRaw cd b y₁ ∧
    primaryDirtyRaw cd b y₂ < primaryDirtyRaw cd b y₁ := by
  have hy1p : (0 : ℝ) < y₁ := by linarith
  have hy2p : (0 : ℝ) < y₂ := by linarith
  have hparR : (0 : ℝ) < (b.par : ℝ) := by exact_mod_cast hpar
  have hcrR : (0 : ℝ) ≤ (b.couponRate : ℝ) := by exact_mod_cast hcr
  have hdZ : (0 : ℤ) < b.maturity - cd := by omega
  have hdR : (0 : ℝ) < ((b.maturity - cd : ℤ) : ℝ) := by exact_mod_cast hdZ
  have hq : (0 : ℝ) < ((b.maturity - cd : ℤ) : ℝ) / 365 := by positivity
  have hsim : ∀ a : ℝ, 0 < a →
      a / (1 + y₂ * (((b.maturity - cd : ℤ) : ℝ) / 365))
        < a / (1 + y₁ * (((b.maturity - cd : ℤ) : ℝ) / 365)) := by
    intro a ha
    apply div_lt_div_of_pos_left ha
    · nlinarith [mul_pos hy1p hq]
    · nlinarith [mul_pos (show (0 : ℝ) < y₂ - y₁ by linarith) hq]
  constructor
  · simp only [secondaryDirtyRaw]
    by_cases hco : 0 < b.couponRate ∧ 0 < b.freq
    · simp only [if_neg (not_not_intro hco)]
      have hfreqR : (0 : ℝ) < (b.freq : ℝ) := by exact_mod_cast hco.2
      have hSD : (0 : ℝ) ≤ (b.par : ℝ) * (b.couponRate : ℝ) / (b.freq : ℝ) := by
        positivity
      by_cases hshort : b.maturity - cd ≤ 182 ∨ futureDates b cd = [b.maturity]
      · simp only [if_pos hshort]
        apply hsim
        linarith
      · simp only [if_neg hshort]
        apply add_lt_add_of_le_of_lt
        · apply List.sum_le_sum
          intro d hd
          have hdc : cd ≤ d := (mem_futureDates.mp hd).2
          have hdcR : (0 : ℝ) ≤ ((d - cd : ℤ) : ℝ) := by
            exact_mod_cast (show (0 : ℤ) ≤ d - cd by omega)
          have ht : (0 : ℝ) ≤ ((d - cd : ℤ) : ℝ) / 365 := by positivity
          apply div_le_div_of_nonneg_left hSD
          · exact Real.rpow_pos_of_pos (by linarith) _
          · exact Real.rpow_le_rpow (by linarith) (by linarith) ht
        · apply div_lt_div_of_pos_left hparR
          · exact Real.rpow_pos_of_pos (by linarith) _
          · exact Real.rpow_lt_rpow (by linarith) (by linarith) (by positivity)
    · simp only [if_pos hco]
      exact hsim _ hparR
  · simp only [primaryDirtyRaw]
    by_cases hco : 0 < b.couponRate ∧ 0 < b.freq
    · simp only [if_neg (not_not_intro hco)]
      have hfreqR : (0 : ℝ) < (b.freq : ℝ) := by exact_mod_cast hco.2
      have hSD : (0 : ℝ) ≤ (b.par : ℝ) * (b.couponRate : ℝ) / (b.freq : ℝ) := by
        positivity
      have hb1 : (0 : ℝ) < 1 + y₁ / (b.freq : ℝ) := by positivity
      have hbb : 1 + y₁ / (b.freq : ℝ) < 1 + y₂ / (b.freq : ℝ) := by
        have h2 : y₁ / (b.freq : ℝ) < y₂ / (b.freq : ℝ) :=
          div_lt_div_of_pos_right h12 hfreqR
        linarith
      have hkd : (0 : ℝ) < ((prevAndKdp0 (full_coupon_schedule b)
          ((futureDates b cd).headD 0) b.freq).2 : ℝ) := by
        exact_mod_cast prevAndKdp0_snd_pos (full_coupon_schedule b)
          ((futureDates b cd).headD 0) b.freq
      apply List.sum_lt_sum
      · intro d hd
        have hdc : cd ≤ d := (mem_futureDates.mp hd).2
        have hdcR : (0 : ℝ) ≤ ((d - cd : ℤ) : ℝ) := by
          exact_mod_cast (show (0 : ℤ) ≤ d - cd by omega)
        have he : (0 : ℝ) ≤ ((d - cd : ℤ) : ℝ)
            / ((prevAndKdp0 (full_coupon_schedule b)
              ((futureDates b cd).headD 0) b.freq).2 : ℝ) := by positivity
        apply add_le_add
        · apply div_le_div_of_nonneg_left hSD
          · exact Real.rpow_pos_of_pos hb1 _
          · exact Real.rpow_le_rpow (le_of_lt hb1) (le_of_lt hbb) he
        · by_cases hdm : d = b.maturity
          · rw [if_pos hdm, if_pos hdm]
            apply div_le_div_of_nonneg_left (le_of_lt hparR)
            · exact Real.rpow_pos_of_pos hb1 _
            · exact Real.rpow_le_rpow (le_of_lt hb1) (le_of_lt hbb) he
          · rw [if_neg hdm, if_neg hdm]
      · refine ⟨b.maturity, maturity_mem_futureDates (le_of_lt hm), ?_⟩
        have hE : (0 : ℝ) < ((b.maturity - cd : ℤ) : ℝ)
            / ((prevAndKdp0 (full_coupon_schedule b)
              ((futureDates b cd).headD 0) b.freq).2 : ℝ) := by positivity
        apply add_lt_add_of_le_of_lt
        · apply div_le_div_of_nonneg_left hSD
          · exact Real.rpow_pos_of_pos hb1 _
          · exact Real.rpow_le_rpow (le_of_lt hb1) (le_of_lt hbb) (le_of_lt hE)
        · rw [if_pos rfl, if_pos rfl]
          apply div_lt_div_of_pos_left hparR
          · exact Real.rpow_pos_of_pos hb1 _
          · exact Real.rpow_lt_rpow (le_of_lt hb1) hbb hE
    · simp only [if_pos hco]
      exact hsim _ hparR

/-- C8 witness: strict decrease of both raw dirty prices on `bondA` at
day 0 between the admissible yields 0.2 and 0.5. -/
theorem dirty_price_strictly_decreasing_in_yield_witness :
    secondaryDirtyRaw 0 bondA (1 / 2) < secondaryDirtyRaw 0 bondA (1 / 5) ∧
    primaryDirtyRaw 0 bondA (1 / 2) < primaryDirtyRaw 0 bondA (1 / 5) :=
  dirty_price_strictly_decreasing_in_yield 0 bondA (1 / 5) (1 / 2)
    (by decide) (by norm_num [bondA]) (by norm_num [bondA])
    (by norm_num) (by norm_num) (by norm_num)

/-- C8 counterexample: the dirty price actually returned is rounded to two
decimals, so it is not strictly decreasing: on the zero-coupon `bondZ`
(365 days to maturity) the admissible yields 25% and 25.000125...%
(`20000100/799999` percent) both produce the returned dirty price 800.00
(the unrounded prices are 800 and 799.999). -/
theorem rounded_dirty_price_not_strictly_decreasing :
    (1 : ℚ) / 100 < (25 : ℚ) / 100 ∧
    (25 : ℚ) / 100 < (20000100 / 799999 : ℚ) / 100 ∧
    (20000100 / 799999 : ℚ) / 100 < 1 ∧
    (secondary_price_from_yield 0 bondZ 25).1
      = (secondary_price_from_yield 0 bondZ (20000100 / 799999)).1 := by
  refine ⟨by norm_num, by norm_num, by norm_num, ?_⟩
  rw [secondary_eval_zero 0 bondZ 25 (by decide) (by norm_num [bondZ]),
      secondary_eval_zero 0 bondZ (20000100 / 799999) (by decide) (by norm_num [bondZ])]
  have hA : (bondZ.par : ℝ)
      / (1 + ((25 : ℚ) : ℝ) / 100 * (((bondZ.maturity - 0 : ℤ) : ℝ) / 365))
      = 800 := by
    simp only [bondZ]
    push_cast
    norm_num
  have hB : (bondZ.par : ℝ)
      / (1 + (((20000100 / 799999 : ℚ)) : ℝ) / 100
          * (((bondZ.maturity - 0 : ℤ) : ℝ) / 365))
      = 799999 / 1000 := by
    simp only [bondZ]
    push_cast
    norm_num
  rw [hA, hB]
  have hBr : round2R ((799999 : ℝ) / 1000) = ((80000 : ℤ) : ℝ) / 100 := by
    rw [round2R]
    have h1 : (100 : ℝ) * (799999 / 1000) = 799999 / 10 := by norm_num
    rw [h1, round_eq]
    have h2 : ⌊(799999 / 10 : ℝ) + 1 / 2⌋ = 80000 :=
      Int.floor_eq_iff.mpr ⟨by norm_num, by norm_num⟩
    rw [h2]
  rw [round2R_eq_of_mul_eq 800 80000 (by norm_num), hBr]
